import Mathlib

/-!
Verification of the transaction-report chain builder (`src/chain.cc`,
`ledger::chain_xact_handlers`) against its natural-language specification.

The builder is translated directly from the source: a report configuration
(`report_t`), a base handler, and a mode flag produce a decorated chain of
stage handlers (`Handler`).  The individual stage behaviours (`filters.h`
is not part of this repository) are modelled from the spec, section 4,
as list transformers composed by `runHandler`.
-/

namespace Ledger


/-- An option expression: a text payload together with an optional
evaluation context (the C++ `expr_t` holds a context pointer that
`set_context` reseats; we record the id of the report it points to). -/
structure expr_t where
  text : String
  context : Option Nat
deriving DecidableEq

/-- The report configuration consumed by the builder: each recognized
option is either absent or present with its payload, exactly the set of
options read by `chain_xact_handlers`.  `id` stands for the identity of
the report object (the target of `set_context(&report)`).
`what_to_keep` is the keep-policy value `report.what_to_keep()` passed to
each `item_predicate`. -/
structure report_t where
  id : Nat
  head_ : Option Int
  tail_ : Option Int
  display_ : Option String
  amount_ : Option expr_t
  only_ : Option String
  sort_ : Option String
  sort_entries_ : Bool
  revalued : Bool
  revalued_only : Bool
  total_ : expr_t
  collapse : Bool
  subtotal : Bool
  dow : Bool
  by_payee : Bool
  period_ : Option String
  invert : Bool
  related : Bool
  related_all : Bool
  anon : Bool
  limit_ : Option String
  comm_as_payee : Bool
  code_as_payee : Bool
  what_to_keep : String
deriving DecidableEq

/-- The `value.to_long()` read on a possibly unhandled option: absent
yields 0. -/
def toLong : Option Int → Int
  | none => 0
  | some n => n

/-- The chain of transaction handlers.  One constructor per stage class
wired by `chain_xact_handlers`; each stage holds the handler it wraps
(its downstream) plus the constructor arguments taken from the report.
`base` stands for the externally supplied base handler when a chain is
built over the pure sink. -/
inductive Handler where
  | base : Handler
  | truncate_entries (inner : Handler) (headCount tailCount : Int) : Handler
  | filter_xacts (inner : Handler) (pred keep : String) : Handler
  | calc_xacts (inner : Handler) (amountExpr : expr_t) : Handler
  | sort_entries (inner : Handler) (sortOrder : String) : Handler
  | sort_xacts (inner : Handler) (sortOrder : String) : Handler
  | changed_value_xacts (inner : Handler) (totalExpr : expr_t) (changedValuesOnly : Bool) : Handler
  | collapse_xacts (inner : Handler) : Handler
  | subtotal_xacts (inner : Handler) : Handler
  | dow_xacts (inner : Handler) : Handler
  | by_payee_xacts (inner : Handler) : Handler
  | interval_xacts (inner : Handler) (interval : String) : Handler
  | invert_xacts (inner : Handler) : Handler
  | related_xacts (inner : Handler) (alsoMatching : Bool) : Handler
  | anonymize_xacts (inner : Handler) : Handler
  | set_comm_as_payee (inner : Handler) : Handler
  | set_code_as_payee (inner : Handler) : Handler
deriving DecidableEq

/-- The report after the builder's one write to it: in individual mode the
builder reseats the context of the amount expression onto the report
(`expr.set_context(&report)` on `HANDLER(amount_).expr`). -/
def set_amount_context (r : report_t) : report_t :=
  match r.amount_ with
  | none => r
  | some ae => { r with amount_ := some { ae with context := some r.id } }

/-- Translation of `ledger::chain_xact_handlers` (src/chain.cc lines
42-184).  The C++ reseats a smart pointer `handler` stage by stage; here
each reseat is a `let`.  The `assert(report.HANDLED(amount_))` at line 63
is the only failure: it is modelled as `none`.  The function returns the
final handler together with the report as left behind by the builder
(the builder mutates the report once, at `set_context`). -/
def chain_xact_handlers (report : report_t) (base_handler : Handler)
    (handle_individual_xacts : Bool) : Option (Handler × report_t) :=
  let handler := base_handler
  if handle_individual_xacts then
    -- truncate_entries cuts off a certain number of _entries_
    let handler :=
      if report.head_.isSome || report.tail_.isSome then
        Handler.truncate_entries handler (toLong report.head_) (toLong report.tail_)
      else handler
    -- filter_xacts passing the display predicate
    let handler :=
      match report.display_ with
      | some s => Handler.filter_xacts handler s report.what_to_keep
      | none => handler
    -- assert(report.HANDLED(amount_)); then the running-total calculator
    match report.amount_ with
    | none => none
    | some ae =>
      let rep := { report with amount_ := some { ae with context := some report.id } }
      let handler := Handler.calc_xacts handler { ae with context := some report.id }
      -- filter_xacts passing the secondary (only) predicate
      let handler :=
        match rep.only_ with
        | some s => Handler.filter_xacts handler s rep.what_to_keep
        | none => handler
      -- sort_xacts / sort_entries on the sort_order expression
      let handler :=
        match rep.sort_ with
        | some s =>
          if rep.sort_entries_ then Handler.sort_entries handler s
          else Handler.sort_xacts handler s
        | none => handler
      -- changed_value_xacts accounts for changes in market value
      let handler :=
        if rep.revalued then
          Handler.changed_value_xacts handler rep.total_ rep.revalued_only
        else handler
      -- collapse_xacts subtotals entries with multiple xacts
      let handler :=
        if rep.collapse then Handler.collapse_xacts handler else handler
      -- subtotal_xacts combines all received xacts into one subtotal entry
      let handler :=
        if rep.subtotal then Handler.subtotal_xacts handler else handler
      -- dow_xacts, else by_payee_xacts
      let handler :=
        if rep.dow then Handler.dow_xacts handler
        else if rep.by_payee then Handler.by_payee_xacts handler
        else handler
      -- interval_xacts groups by time period, followed by a date sort
      let handler :=
        match rep.period_ with
        | some p =>
          Handler.sort_xacts (Handler.interval_xacts handler p) "d"
        | none => handler
      -- invert_xacts inverts the value of the xacts it receives
      let handler :=
        if rep.invert then Handler.invert_xacts handler else handler
      -- related_xacts passes along all related xacts
      let handler :=
        if rep.related then Handler.related_xacts handler rep.related_all
        else handler
      -- anonymize_xacts strips identifying information
      let handler :=
        if rep.anon then Handler.anonymize_xacts handler else handler
      -- filter_xacts passing the report predicate (limit)
      let handler :=
        match rep.limit_ with
        | some s => Handler.filter_xacts handler s rep.what_to_keep
        | none => handler
      -- set_comm_as_payee, else set_code_as_payee
      let handler :=
        if rep.comm_as_payee then Handler.set_comm_as_payee handler
        else if rep.code_as_payee then Handler.set_code_as_payee handler
        else handler
      some (handler, rep)
  else
    let handler :=
      if report.invert then Handler.invert_xacts handler else handler
    let handler :=
      if report.related then Handler.related_xacts handler report.related_all
      else handler
    let handler :=
      if report.anon then Handler.anonymize_xacts handler else handler
    let handler :=
      match report.limit_ with
      | some s => Handler.filter_xacts handler s report.what_to_keep
      | none => handler
    let handler :=
      if report.comm_as_payee then Handler.set_comm_as_payee handler
      else if report.code_as_payee then Handler.set_code_as_payee handler
      else handler
    some (handler, report)

/-- Apply a list of stage-wrapping steps in order: each step wraps the
previously assembled chain, so the last step of the list builds the
returned head. -/
def applyAll (fs : List (Handler → Handler)) (h : Handler) : Handler :=
  fs.foldl (fun acc f => f acc) h

/-- A conditional wiring step enabled by a boolean option. -/
def boolSeg (c : Bool) (f : Handler → Handler) : List (Handler → Handler) :=
  if c then [f] else []

/-- A conditional wiring step enabled by a present-with-value option. -/
def optSeg {α : Type} : Option α → (α → Handler → Handler) → List (Handler → Handler)
  | some a, f => [f a]
  | none, _ => []

/-- Modelled from the spec: the mode-independent tail of the precedence
order (steps 12-16 of section 4.1) — invert, related-expansion,
anonymize, limit filter, payee substitution — each wired only when its
enabling option is present, in this fixed order. -/
def common_wraps (r : report_t) : List (Handler → Handler) :=
  boolSeg r.invert (fun h => Handler.invert_xacts h)
  ++ boolSeg r.related (fun h => Handler.related_xacts h r.related_all)
  ++ boolSeg r.anon (fun h => Handler.anonymize_xacts h)
  ++ optSeg r.limit_ (fun s h => Handler.filter_xacts h s r.what_to_keep)
  ++ (if r.comm_as_payee then [fun h => Handler.set_comm_as_payee h]
      else if r.code_as_payee then [fun h => Handler.set_code_as_payee h]
      else [])

/-- Modelled from the spec: the individual-transaction-mode prefix of the
precedence order (steps 2-10 of section 4.1) — truncate-by-position,
display filter, running-total calculator, only filter, sort (by entry or
by xact), revaluation, collapse, subtotal, day-of-week/payee grouping,
interval grouping with its forced date sort. -/
def individual_wraps (r : report_t) : List (Handler → Handler) :=
  boolSeg (r.head_.isSome || r.tail_.isSome)
    (fun h => Handler.truncate_entries h (toLong r.head_) (toLong r.tail_))
  ++ optSeg r.display_ (fun s h => Handler.filter_xacts h s r.what_to_keep)
  ++ optSeg r.amount_ (fun ae h => Handler.calc_xacts h ae)
  ++ optSeg r.only_ (fun s h => Handler.filter_xacts h s r.what_to_keep)
  ++ optSeg r.sort_ (fun s h =>
      if r.sort_entries_ then Handler.sort_entries h s else Handler.sort_xacts h s)
  ++ boolSeg r.revalued (fun h => Handler.changed_value_xacts h r.total_ r.revalued_only)
  ++ boolSeg r.collapse (fun h => Handler.collapse_xacts h)
  ++ boolSeg r.subtotal (fun h => Handler.subtotal_xacts h)
  ++ (if r.dow then [fun h => Handler.dow_xacts h]
      else if r.by_payee then [fun h => Handler.by_payee_xacts h]
      else [])
  ++ optSeg r.period_ (fun p h => Handler.sort_xacts (Handler.interval_xacts h p) "d")

/-- Modelled from the spec: the assembly algorithm of section 4.1 — start
from the base stage and, for each enabled stage in the fixed precedence
order, wrap the previously assembled chain, the individual-mode steps
first, then the mode-independent steps, so the stage wired last is the
returned head. -/
def build_spec (r : report_t) (mode : Bool) (start : Handler) : Handler :=
  applyAll ((if mode then individual_wraps r else []) ++ common_wraps r) start

/-- Modelled from the spec: a transaction (one posting within an entry) —
owning entry reference (id), entry code, account, payee, commodity tag,
date, amount, computed running total, and the transient virtual flag for
stage-synthesized transactions (section 3). -/
structure Xact where
  entry : Nat
  code : String
  account : String
  payee : String
  commodity : String
  date : Nat
  amount : Int
  total : Int
  virtual : Bool
deriving DecidableEq

/-- Modelled from the spec: the collaborator interfaces the stages consume
(section 6) — an expression evaluator over a transaction returning a
boolean (predicates, given the predicate text and the keep policy) or an
ordering key (sort expressions) or an amount; a market-valuation lookup;
the period-bucketing of a date by a period spec string; the stable
anonymization placeholder map; and read access to an entry's full
transaction list (for related-expansion). -/
structure Env where
  evalPred : String → String → Xact → Bool
  evalKey : String → Xact → Int
  evalAmount : String → Xact → Int
  marketValue : Nat → Int → Int
  periodOf : String → Nat → Nat
  anonFn : String → String
  entryOf : Nat → List Xact

/-- Modelled from the spec: the calculator stage (section 4.3) — add each
received transaction's amount (per the amount expression) to the running
register and write the register's current value into its total field. -/
def calcTotals (f : Xact → Int) (reg : Int) : List Xact → List Xact
  | [] => []
  | x :: xs => { x with total := reg + f x } :: calcTotals f (reg + f x) xs

/-- Modelled from the spec: negate amount and running total (section 4.8,
invert stage). -/
def invertF (xs : List Xact) : List Xact :=
  xs.map (fun x => { x with amount := - x.amount, total := - x.total })

/-- Modelled from the spec: replace payee and account identifying fields
with stable placeholder tokens (section 4.8, anonymize stage). -/
def anonymizeF (anonOf : String → String) (xs : List Xact) : List Xact :=
  xs.map (fun x => { x with payee := anonOf x.payee, account := anonOf x.account })

/-- Modelled from the spec: overwrite payee with the commodity code
(section 4.8, payee substitution). -/
def commAsPayeeF (xs : List Xact) : List Xact :=
  xs.map (fun x => { x with payee := x.commodity })

/-- Modelled from the spec: overwrite payee with the entry code
(section 4.8, payee substitution). -/
def codeAsPayeeF (xs : List Xact) : List Xact :=
  xs.map (fun x => { x with payee := x.code })

/-- Modelled from the spec: group the stream into whole entries in arrival
order (consecutive transactions of the same entry form one group), as
truncation and entry sorting operate on entries, not raw transactions. -/
def groupByEntry : List Xact → List (List Xact)
  | [] => []
  | x :: xs =>
    match groupByEntry xs with
    | [] => [[x]]
    | [] :: gs => [x] :: gs
    | (y :: g) :: gs =>
      if x.entry = y.entry then (x :: y :: g) :: gs
      else [x] :: (y :: g) :: gs

/-- Modelled from the spec: truncate-by-position (section 4.4) — head
limiting forwards the first `headCount` whole entries, tail limiting
forwards the last `tailCount` whole entries at end of stream; a zero
count means no limit on that side. -/
def truncateF (headCount tailCount : Int) (xs : List Xact) : List Xact :=
  let gs := groupByEntry xs
  let gs1 := if headCount ≠ 0 then gs.take headCount.toNat else gs
  let gs2 := if tailCount ≠ 0 then gs1.drop (gs1.length - tailCount.toNat) else gs1
  gs2.flatten

/-- Modelled from the spec: stable insertion of one transaction into a
key-sorted buffer — a transaction moves before the first strictly greater
key, so equal keys preserve arrival order (section 4.5). -/
def insertByKey (key : Xact → Int) (x : Xact) : List Xact → List Xact
  | [] => [x]
  | y :: ys => if key x < key y then x :: y :: ys else y :: insertByKey key x ys

/-- Modelled from the spec: the transaction sort stage (section 4.5) —
buffer the whole stream, at finish emit it stably sorted by the ordering
key. -/
def sortByKey (key : Xact → Int) : List Xact → List Xact
  | [] => []
  | x :: xs => insertByKey key x (sortByKey key xs)

/-- Modelled from the spec: the key an entry group sorts by — the entry's
own derived key, taken from its transactions (section 4.5). -/
def entryKey (key : Xact → Int) : List Xact → Int
  | [] => 0
  | x :: _ => key x

/-- Stable insertion of one entry group into a sorted buffer of groups. -/
def insertGroup (key : List Xact → Int) (g : List Xact) :
    List (List Xact) → List (List Xact)
  | [] => [g]
  | h :: t => if key g < key h then g :: h :: t else h :: insertGroup key g t

/-- Stable sort of entry groups by the entry key. -/
def sortGroups (key : List Xact → Int) : List (List Xact) → List (List Xact)
  | [] => []
  | g :: gs => insertGroup key g (sortGroups key gs)

/-- Modelled from the spec: the entry sort stage (section 4.5) — sorts each
entry's transaction group as a unit using the entry's derived key. -/
def sortEntriesF (key : Xact → Int) (xs : List Xact) : List Xact :=
  (sortGroups (entryKey key) (groupByEntry xs)).flatten

/-- Encounter-order list of the distinct elements of a list (first
occurrences, in arrival order): the iteration order of the ordered
group-key mapping of section 4.6. -/
def firstOccs {α : Type} [DecidableEq α] : List α → List α
  | [] => []
  | a :: l => a :: (firstOccs l).filter (fun b => decide (b ≠ a))

/-- Sum of the amounts of a group of transactions. -/
def sumAmounts (l : List Xact) : Int := l.foldl (fun a x => a + x.amount) 0

/-- Modelled from the spec: one synthesized subtotal transaction per
commodity encountered in a group, in encounter order, carrying the
group's summed amount for that commodity and flagged virtual
(section 4.6). -/
def commoditySub (g : List Xact) : List Xact :=
  (firstOccs (g.map Xact.commodity)).flatMap (fun c =>
    match g.filter (fun x => decide (x.commodity = c)) with
    | [] => []
    | t :: r => [{ t with amount := sumAmounts (t :: r), total := 0, virtual := true }])

/-- Modelled from the spec: the generic grouping/subtotaling drain of
section 4.6 — route each transaction to the accumulator of its key, then
at finish emit, for each key in encounter order, the synthesized output
of that key's group. -/
def groupEmitBy {α : Type} [DecidableEq α] (key : Xact → α)
    (mk : α → List Xact → List Xact) (xs : List Xact) : List Xact :=
  (firstOccs (xs.map key)).flatMap (fun k => mk k (xs.filter (fun x => decide (key x = k))))

/-- Modelled from the spec: collapse — per entry, one subtotal transaction
per commodity used in that entry (section 4.6). -/
def collapseF (xs : List Xact) : List Xact :=
  groupEmitBy Xact.entry (fun _ g => commoditySub g) xs

/-- Modelled from the spec: plain subtotaling — one subtotal per
commodity-in-account over the whole stream (section 4.6). -/
def subtotalF (xs : List Xact) : List Xact :=
  groupEmitBy (fun x => (x.account, x.commodity)) (fun _ g => commoditySub g) xs

/-- Modelled from the spec: day-of-week grouping — subtotals keyed by the
weekday of the date (section 4.6). -/
def dowF (xs : List Xact) : List Xact :=
  groupEmitBy (fun x => x.date % 7) (fun _ g => commoditySub g) xs

/-- Modelled from the spec: payee grouping — subtotals keyed by payee
(section 4.6). -/
def byPayeeF (xs : List Xact) : List Xact :=
  groupEmitBy Xact.payee (fun _ g => commoditySub g) xs

/-- Modelled from the spec: a period bucket's emitted subtotals carry the
bucket's start boundary as their date (section 4.6). -/
def intervalEmit (k : Nat) (g : List Xact) : List Xact :=
  (commoditySub g).map (fun x => { x with date := k })

/-- Modelled from the spec: interval (period) grouping — bucket the stream
by the period containing each date, and emit each bucket's subtotals, in
bucket encounter order, dated at the bucket start (section 4.6). -/
def intervalF (bucketOf : Nat → Nat) (xs : List Xact) : List Xact :=
  groupEmitBy (fun x => bucketOf x.date) intervalEmit xs

/-- Modelled from the spec: revaluation (section 4.7) — for each
transaction compute the difference between its recorded amount and its
current market value; if non-zero, synthesize a virtual delta transaction
at its date and forward it, followed by the original unless deltas-only
is requested. -/
def changedValueF (mv : Nat → Int → Int) (deltasOnly : Bool) (xs : List Xact) : List Xact :=
  xs.flatMap (fun x =>
    (if mv x.date x.amount - x.amount ≠ 0 then
      [{ x with amount := mv x.date x.amount - x.amount, virtual := true }]
    else []) ++ (if deltasOnly then [] else [x]))

/-- Modelled from the spec: related-expansion with all-related enabled —
forward every transaction of each received transaction's entry,
deduplicated across repeated entries in the stream (section 4.9). -/
def relatedAllF (entryXacts : Nat → List Xact) : List Nat → List Xact → List Xact
  | _, [] => []
  | seen, x :: xs =>
    if x.entry ∈ seen then relatedAllF entryXacts seen xs
    else entryXacts x.entry ++ relatedAllF entryXacts (x.entry :: seen) xs

/-- Modelled from the spec: related-expansion (section 4.9) — with
all-related, every transaction of the entry (deduplicated); otherwise
each received transaction's siblings in its entry. -/
def relatedF (entryXacts : Nat → List Xact) (alsoMatching : Bool) (xs : List Xact) : List Xact :=
  if alsoMatching then relatedAllF entryXacts [] xs
  else xs.flatMap (fun x => (entryXacts x.entry).filter (fun y => decide (y ≠ x)))

/-- Modelled from the spec: the streaming protocol of section 2 — the
driver pushes each transaction into the chain head and data flows
strictly forward, each stage's emitted output becoming the wrapped
(downstream) stage's input, until the base stage receives the fully
processed stream.  A chain's observable behaviour is therefore the
composition of its stages' list transformers, head (outermost
constructor) first. -/
def runHandler (env : Env) : Handler → List Xact → List Xact
  | .base, xs => xs
  | .truncate_entries inner hd tl, xs => runHandler env inner (truncateF hd tl xs)
  | .filter_xacts inner s keep, xs => runHandler env inner (xs.filter (env.evalPred s keep))
  | .calc_xacts inner e, xs => runHandler env inner (calcTotals (env.evalAmount e.text) 0 xs)
  | .sort_entries inner s, xs => runHandler env inner (sortEntriesF (env.evalKey s) xs)
  | .sort_xacts inner s, xs => runHandler env inner (sortByKey (env.evalKey s) xs)
  | .changed_value_xacts inner _ ro, xs => runHandler env inner (changedValueF env.marketValue ro xs)
  | .collapse_xacts inner, xs => runHandler env inner (collapseF xs)
  | .subtotal_xacts inner, xs => runHandler env inner (subtotalF xs)
  | .dow_xacts inner, xs => runHandler env inner (dowF xs)
  | .by_payee_xacts inner, xs => runHandler env inner (byPayeeF xs)
  | .interval_xacts inner p, xs => runHandler env inner (intervalF (env.periodOf p) xs)
  | .invert_xacts inner, xs => runHandler env inner (invertF xs)
  | .related_xacts inner all, xs => runHandler env inner (relatedF env.entryOf all xs)
  | .anonymize_xacts inner, xs => runHandler env inner (anonymizeF env.anonFn xs)
  | .set_comm_as_payee inner, xs => runHandler env inner (commAsPayeeF xs)
  | .set_code_as_payee inner, xs => runHandler env inner (codeAsPayeeF xs)

/-- The kind of each stage in a chain, keeping the predicate text of
filters and the ordering expression of sorts to tell same-kind stages
apart. -/
inductive StageTag where
  | truncateT : StageTag
  | filterT (pred : String) : StageTag
  | calcT : StageTag
  | sortEntriesT (sortOrder : String) : StageTag
  | sortXactsT (sortOrder : String) : StageTag
  | changedValueT : StageTag
  | collapseT : StageTag
  | subtotalT : StageTag
  | dowT : StageTag
  | byPayeeT : StageTag
  | intervalT (interval : String) : StageTag
  | invertT : StageTag
  | relatedT : StageTag
  | anonT : StageTag
  | commT : StageTag
  | codeT : StageTag
deriving DecidableEq

/-- The stages of a chain, head (outermost) first. -/
def stageTags : Handler → List StageTag
  | .base => []
  | .truncate_entries i _ _ => .truncateT :: stageTags i
  | .filter_xacts i s _ => .filterT s :: stageTags i
  | .calc_xacts i _ => .calcT :: stageTags i
  | .sort_entries i s => .sortEntriesT s :: stageTags i
  | .sort_xacts i s => .sortXactsT s :: stageTags i
  | .changed_value_xacts i _ _ => .changedValueT :: stageTags i
  | .collapse_xacts i => .collapseT :: stageTags i
  | .subtotal_xacts i => .subtotalT :: stageTags i
  | .dow_xacts i => .dowT :: stageTags i
  | .by_payee_xacts i => .byPayeeT :: stageTags i
  | .interval_xacts i p => .intervalT p :: stageTags i
  | .invert_xacts i => .invertT :: stageTags i
  | .related_xacts i _ => .relatedT :: stageTags i
  | .anonymize_xacts i => .anonT :: stageTags i
  | .set_comm_as_payee i => .commT :: stageTags i
  | .set_code_as_payee i => .codeT :: stageTags i

/-- Whether a stage tag is one of the two sort stages. -/
def isSortTag : StageTag → Bool
  | .sortXactsT _ => true
  | .sortEntriesT _ => true
  | _ => false

/-- Whether a chain contains a sort stage. -/
def containsSortStage (h : Handler) : Bool := (stageTags h).any isSortTag

/-- A wiring step prepends a fixed segment of tags to the chain's tags. -/
def prependsTags (f : Handler → Handler) (ts : List StageTag) : Prop :=
  ∀ h, stageTags (f h) = ts ++ stageTags h

/-- The tag segment wired by a boolean-enabled step. -/
def boolTags (c : Bool) (ts : List StageTag) : List (List StageTag) :=
  if c then [ts] else []

/-- The tag segment wired by a present-with-value-enabled step. -/
def optTags {α : Type} (o : Option α) (t : α → List StageTag) : List (List StageTag) :=
  match o with
  | some a => [t a]
  | none => []

/-- The tag segments, in wiring order, of the mode-independent steps. -/
def common_tag_segs (r : report_t) : List (List StageTag) :=
  boolTags r.invert [.invertT]
  ++ boolTags r.related [.relatedT]
  ++ boolTags r.anon [.anonT]
  ++ optTags r.limit_ (fun s => [.filterT s])
  ++ (if r.comm_as_payee then [[StageTag.commT]]
      else if r.code_as_payee then [[StageTag.codeT]]
      else [])

/-- The tag segments, in wiring order, of the individual-mode steps. -/
def individual_tag_segs (r : report_t) : List (List StageTag) :=
  boolTags (r.head_.isSome || r.tail_.isSome) [.truncateT]
  ++ optTags r.display_ (fun s => [.filterT s])
  ++ optTags r.amount_ (fun _ => [.calcT])
  ++ optTags r.only_ (fun s => [.filterT s])
  ++ optTags r.sort_ (fun s =>
      if r.sort_entries_ then [.sortEntriesT s] else [.sortXactsT s])
  ++ boolTags r.revalued [.changedValueT]
  ++ boolTags r.collapse [.collapseT]
  ++ boolTags r.subtotal [.subtotalT]
  ++ (if r.dow then [[StageTag.dowT]]
      else if r.by_payee then [[StageTag.byPayeeT]]
      else [])
  ++ optTags r.period_ (fun p => [.sortXactsT "d", .intervalT p])

/-- The handler one stage in from the head (the handler the head stage
wraps); the base sink is its own inner. -/
def innerOf : Handler → Handler
  | .base => .base
  | .truncate_entries i _ _ => i
  | .filter_xacts i _ _ => i
  | .calc_xacts i _ => i
  | .sort_entries i _ => i
  | .sort_xacts i _ => i
  | .changed_value_xacts i _ _ => i
  | .collapse_xacts i => i
  | .subtotal_xacts i => i
  | .dow_xacts i => i
  | .by_payee_xacts i => i
  | .interval_xacts i _ => i
  | .invert_xacts i => i
  | .related_xacts i _ => i
  | .anonymize_xacts i => i
  | .set_comm_as_payee i => i
  | .set_code_as_payee i => i

/-- A sample collaborator environment for concrete runs: the predicate
text "disp" keeps accounts other than "B", "pos" keeps positive amounts;
the sort key "d" is the date and "negd" its negation; the amount
expression is the transaction's amount; the period spec "m" buckets dates
into windows of thirty starting at multiples of thirty, while any other
spec puts each date in its own bucket. -/
def envEx : Env :=
  { evalPred := fun s _ x =>
      if s = "disp" then x.account != "B"
      else if s = "pos" then decide (0 < x.amount)
      else true,
    evalKey := fun s x =>
      if s = "d" then Int.ofNat x.date
      else if s = "negd" then - Int.ofNat x.date
      else 0,
    evalAmount := fun _ x => x.amount,
    marketValue := fun _ a => a,
    periodOf := fun s d => if s = "m" then d / 30 * 30 else d,
    anonFn := fun s => s,
    entryOf := fun _ => [] }

/-- A blank transaction to build samples from. -/
def xact0 : Xact :=
  { entry := 0, code := "", account := "A", payee := "P", commodity := "USD",
    date := 0, amount := 0, total := 0, virtual := false }

/-- A report with every option absent. -/
def report0 : report_t :=
  { id := 0, head_ := none, tail_ := none, display_ := none, amount_ := none,
    only_ := none, sort_ := none, sort_entries_ := false, revalued := false,
    revalued_only := false, total_ := { text := "t", context := none },
    collapse := false, subtotal := false, dow := false, by_payee := false,
    period_ := none, invert := false, related := false, related_all := false,
    anon := false, limit_ := none, comm_as_payee := false,
    code_as_payee := false, what_to_keep := "k" }

/-- Report enabling only the display filter and the amount expression. -/
def rC2 : report_t :=
  { report0 with display_ := some "disp", amount_ := some { text := "amt", context := none } }

/-- Three one-transaction entries with amounts 1, 2, 3; the second posts
to account "B" and is the one the "disp" predicate excludes. -/
def xsC2 : List Xact :=
  [{ xact0 with entry := 1, amount := 1 },
   { xact0 with entry := 2, account := "B", amount := 2 },
   { xact0 with entry := 3, amount := 3 }]

/-- The chain built for `rC2`: the calculator wrapping the display filter
wrapping the base sink. -/
def hC2 : Handler :=
  Handler.calc_xacts (Handler.filter_xacts Handler.base "disp" "k")
    { text := "amt", context := some 0 }

/-- Report enabling the amount expression, a non-date sort and a period. -/
def rC3 : report_t :=
  { report0 with
    amount_ := some { text := "amt", context := none },
    sort_ := some "negd", period_ := some "m" }

/-- Two one-transaction entries on dates 5 and 40, falling into distinct
thirty-wide periods. -/
def xsC3 : List Xact :=
  [{ xact0 with entry := 1, date := 5, amount := 1 },
   { xact0 with entry := 2, date := 40, amount := 1 }]

/-- Report enabling the amount expression with a period but no sort. -/
def rC3w : report_t :=
  { report0 with
    amount_ := some { text := "amt", context := none }, period_ := some "w" }

/-- The chain built for `rC3w`: the forced date sort wrapping the interval
stage wrapping the calculator. -/
def hC3w : Handler :=
  Handler.sort_xacts
    (Handler.interval_xacts
      (Handler.calc_xacts Handler.base { text := "amt", context := some 0 }) "w") "d"

/-- Report enabling the amount expression, plain subtotaling and
day-of-week grouping together. -/
def rC4 : report_t :=
  { report0 with
    amount_ := some { text := "amt", context := none },
    subtotal := true, dow := true }

/-- The chain built for `rC4`: the day-of-week grouper wrapping the plain
subtotaler wrapping the calculator — both grouping stages are wired. -/
def hC4 : Handler :=
  Handler.dow_xacts
    (Handler.subtotal_xacts
      (Handler.calc_xacts Handler.base { text := "amt", context := some 0 }))

/-- Report enabling invert and the limit filter (no individual mode). -/
def rC5 : report_t :=
  { report0 with invert := true, limit_ := some "pos" }

/-- One transaction with the positive amount 5. -/
def xsC5 : List Xact := [{ xact0 with entry := 1, amount := 5 }]

/-- The chain built for `rC5`: the limit filter wrapping invert. -/
def hC5 : Handler :=
  Handler.filter_xacts (Handler.invert_xacts Handler.base) "pos" "k"

/-- Report enabling only the amount expression, whose expression context
starts out unset. -/
def rC8 : report_t :=
  { report0 with amount_ := some { text := "amt", context := none } }

/-- The chain built for `rC8`: just the calculator. -/
def hC8 : Handler :=
  Handler.calc_xacts Handler.base { text := "amt", context := some 0 }

/-- Report with sort_entries present but the sort option absent, plus a
period (and the mandatory amount expression). -/
def rC10 : report_t :=
  { report0 with
    amount_ := some { text := "amt", context := none },
    sort_entries_ := true, period_ := some "w" }

/-- Report with sort_entries present, the sort and period options absent,
plus the mandatory amount expression. -/
def rC10w : report_t :=
  { report0 with
    amount_ := some { text := "amt", context := none },
    sort_entries_ := true }

/-- The chain built for `rC10w`: just the calculator. -/
def hC10w : Handler :=
  Handler.calc_xacts Handler.base { text := "amt", context := some 0 }

theorem applyAll_append (l1 l2 : List (Handler → Handler)) (h : Handler) :
    applyAll (l1 ++ l2) h = applyAll l2 (applyAll l1 h) := by
  simp [applyAll, List.foldl_append]

theorem applyAll_boolSeg (c : Bool) (f : Handler → Handler) (h : Handler) :
    applyAll (boolSeg c f) h = if c then f h else h := by
  cases c <;> rfl

theorem applyAll_optSeg {α : Type} (o : Option α) (f : α → Handler → Handler) (h : Handler) :
    applyAll (optSeg o f) h = (match o with | some a => f a h | none => h) := by
  cases o <;> rfl

theorem applyAll_ite (c : Prop) [Decidable c] (l1 l2 : List (Handler → Handler)) (h : Handler) :
    applyAll (if c then l1 else l2) h = if c then applyAll l1 h else applyAll l2 h := by
  split <;> rfl

theorem applyAll_single (f : Handler → Handler) (h : Handler) :
    applyAll [f] h = f h := rfl

theorem applyAll_nil (h : Handler) : applyAll [] h = h := rfl

theorem applyAll_cons (f : Handler → Handler) (fs : List (Handler → Handler)) (h : Handler) :
    applyAll (f :: fs) h = applyAll fs (f h) := rfl

set_option maxHeartbeats 3200000 in
/-- The code-side builder in individual-transaction mode agrees with the
spec-side fold over the precedence list (shared refinement lemma). -/
theorem build_true_eq (r : report_t) (b : Handler) (ae : expr_t)
    (hr : r.amount_ = some ae) :
    chain_xact_handlers r b true
      = some (build_spec (set_amount_context r) true b, set_amount_context r) := by
  have hset : set_amount_context r
      = { r with amount_ := some { ae with context := some r.id } } := by
    unfold set_amount_context; rw [hr]
  simp only [chain_xact_handlers, build_spec, individual_wraps, common_wraps, hr, hset,
    applyAll_append, applyAll_boolSeg, applyAll_optSeg, applyAll_ite, applyAll_single,
    applyAll_nil, if_true]
  cases r.display_ <;> cases r.only_ <;> cases r.sort_ <;> cases r.period_ <;>
    cases r.limit_ <;> rfl

/-- The code-side builder outside individual-transaction mode agrees with
the spec-side fold over the mode-independent steps (shared refinement
lemma). -/
theorem build_false_eq (r : report_t) (b : Handler) :
    chain_xact_handlers r b false = some (applyAll (common_wraps r) b, r) := by
  simp only [chain_xact_handlers, common_wraps,
    applyAll_append, applyAll_boolSeg, applyAll_optSeg, applyAll_ite, applyAll_single,
    applyAll_nil, Bool.false_eq_true, if_false]
  cases r.limit_ <;> rfl

theorem mem_insertByKey {key : Xact → Int} {x y : Xact} :
    ∀ {l : List Xact}, y ∈ insertByKey key x l ↔ y = x ∨ y ∈ l
  | [] => by simp [insertByKey]
  | z :: l => by
    simp only [insertByKey]
    split
    · simp
    · simp only [List.mem_cons, mem_insertByKey (l := l)]
      tauto

theorem pairwise_insertByKey {key : Xact → Int} {x : Xact} :
    ∀ {l : List Xact}, l.Pairwise (fun a b => key a ≤ key b) →
      (insertByKey key x l).Pairwise (fun a b => key a ≤ key b)
  | [], _ => by simp [insertByKey]
  | z :: l, h => by
    rw [List.pairwise_cons] at h
    simp only [insertByKey]
    split
    · rename_i hlt
      rw [List.pairwise_cons]
      refine ⟨?_, List.pairwise_cons.mpr h⟩
      intro b hb
      rcases List.mem_cons.mp hb with hb | hb
      · exact le_of_lt (hb ▸ hlt)
      · exact le_trans (le_of_lt hlt) (h.1 b hb)
    · rename_i hge
      rw [List.pairwise_cons]
      refine ⟨?_, pairwise_insertByKey h.2⟩
      intro b hb
      rcases mem_insertByKey.mp hb with hb | hb
      · exact hb ▸ le_of_not_lt hge
      · exact h.1 b hb

theorem pairwise_sortByKey (key : Xact → Int) :
    ∀ xs : List Xact, (sortByKey key xs).Pairwise (fun a b => key a ≤ key b)
  | [] => by simp [sortByKey]
  | x :: xs => by
    rw [sortByKey]
    exact pairwise_insertByKey (pairwise_sortByKey key xs)

theorem firstOccs_sublist {α : Type} [DecidableEq α] (l : List α) :
    List.Sublist (firstOccs l) l := by
  induction l with
  | nil => simp [firstOccs]
  | cons a l ih =>
      rw [firstOccs]
      exact List.Sublist.cons₂ a ((List.filter_sublist _).trans ih)

theorem date_of_mem_intervalEmit {k : Nat} {g : List Xact} {x : Xact}
    (hx : x ∈ intervalEmit k g) : x.date = k := by
  rcases List.mem_map.mp hx with ⟨y, _, rfl⟩
  rfl

theorem pairwise_date_flatMap (keys : List Nat) (f : Nat → List Xact)
    (hk : keys.Pairwise (· ≤ ·)) (hf : ∀ k, ∀ x ∈ f k, x.date = k) :
    (keys.flatMap f).Pairwise (fun a b => a.date ≤ b.date) := by
  induction keys with
  | nil => simp
  | cons k ks ih =>
      rw [List.flatMap_cons]
      refine List.pairwise_append.mpr ⟨?_, ih hk.of_cons, ?_⟩
      · refine List.pairwise_of_forall_mem_list ?_
        intro a ha b hb
        rw [hf k a ha, hf k b hb]
      · intro a ha b hb
        rcases List.mem_flatMap.mp hb with ⟨k2, hk2, hbk2⟩
        rw [hf k a ha, hf k2 b hbk2]
        exact (List.pairwise_cons.mp hk).1 k2 hk2

theorem pairwise_date_intervalF (bucketOf : Nat → Nat) (xs : List Xact)
    (hmono : ∀ d e, d ≤ e → bucketOf d ≤ bucketOf e)
    (hxs : xs.Pairwise (fun a b => a.date ≤ b.date)) :
    (intervalF bucketOf xs).Pairwise (fun a b => a.date ≤ b.date) := by
  unfold intervalF groupEmitBy
  refine pairwise_date_flatMap _ _ ?_ ?_
  · refine ((List.pairwise_map.mpr ?_).sublist (firstOccs_sublist _))
    exact hxs.imp (fun hab => hmono _ _ hab)
  · intro k x hx
    exact date_of_mem_intervalEmit hx

theorem calcTotals_map_date (f : Xact → Int) (reg : Int) :
    ∀ xs : List Xact, (calcTotals f reg xs).map Xact.date = xs.map Xact.date
  | [] => rfl
  | x :: xs => by
    simp only [calcTotals, List.map_cons, calcTotals_map_date f (reg + f x) xs]

theorem pairwise_date_calcTotals (f : Xact → Int) (reg : Int) (xs : List Xact)
    (h : xs.Pairwise (fun a b => a.date ≤ b.date)) :
    (calcTotals f reg xs).Pairwise (fun a b => a.date ≤ b.date) := by
  have h2 : ((calcTotals f reg xs).map Xact.date).Pairwise (· ≤ ·) := by
    rw [calcTotals_map_date]
    exact List.pairwise_map.mpr h
  exact List.pairwise_map.mp h2

theorem forall2_prepends_append {fs1 fs2 : List (Handler → Handler)}
    {ts1 ts2 : List (List StageTag)}
    (h1 : List.Forall₂ prependsTags fs1 ts1) (h2 : List.Forall₂ prependsTags fs2 ts2) :
    List.Forall₂ prependsTags (fs1 ++ fs2) (ts1 ++ ts2) := by
  induction h1 with
  | nil => exact h2
  | cons hft _ ih => exact List.Forall₂.cons hft ih

theorem stageTags_applyAll {fs : List (Handler → Handler)} {tss : List (List StageTag)}
    (hrel : List.Forall₂ prependsTags fs tss) :
    ∀ h, stageTags (applyAll fs h) = tss.reverse.flatten ++ stageTags h := by
  induction hrel with
  | nil => intro h; rfl
  | cons hft _ ih =>
      intro h
      rw [applyAll_cons, ih, hft]
      simp [List.flatten_append]

theorem forall2_boolSeg (c : Bool) (f : Handler → Handler) (ts : List StageTag)
    (hf : prependsTags f ts) :
    List.Forall₂ prependsTags (boolSeg c f) (boolTags c ts) := by
  cases c
  · exact List.Forall₂.nil
  · exact List.Forall₂.cons hf List.Forall₂.nil

theorem forall2_optSeg {α : Type} (o : Option α) (f : α → Handler → Handler)
    (t : α → List StageTag) (hf : ∀ a, prependsTags (f a) (t a)) :
    List.Forall₂ prependsTags (optSeg o f) (optTags o t) := by
  cases o
  · exact List.Forall₂.nil
  · exact List.Forall₂.cons (hf _) List.Forall₂.nil

theorem forall2_common (r : report_t) :
    List.Forall₂ prependsTags (common_wraps r) (common_tag_segs r) := by
  refine forall2_prepends_append
    (forall2_prepends_append
      (forall2_prepends_append
        (forall2_prepends_append (forall2_boolSeg _ _ _ ?_) (forall2_boolSeg _ _ _ ?_))
        (forall2_boolSeg _ _ _ ?_))
      (forall2_optSeg _ _ _ ?_)) ?_
  · intro h; rfl
  · intro h; rfl
  · intro h; rfl
  · intro a h; rfl
  · by_cases hc : r.comm_as_payee <;> by_cases hd : r.code_as_payee <;>
      simp only [hc, hd, if_true, if_false] <;>
      first
        | exact List.Forall₂.nil
        | exact List.Forall₂.cons (fun h => rfl) List.Forall₂.nil

theorem forall2_individual (r : report_t) :
    List.Forall₂ prependsTags (individual_wraps r) (individual_tag_segs r) := by
  refine forall2_prepends_append
    (forall2_prepends_append
      (forall2_prepends_append
        (forall2_prepends_append
          (forall2_prepends_append
            (forall2_prepends_append
              (forall2_prepends_append
                (forall2_prepends_append
                  (forall2_prepends_append
                    (forall2_boolSeg _ _ _ ?_) (forall2_optSeg _ _ _ ?_))
                  (forall2_optSeg _ _ _ ?_))
                (forall2_optSeg _ _ _ ?_))
              (forall2_optSeg _ _ _ ?_))
            (forall2_boolSeg _ _ _ ?_))
          (forall2_boolSeg _ _ _ ?_))
        (forall2_boolSeg _ _ _ ?_))
      ?_)
    (forall2_optSeg _ _ _ ?_)
  · intro h; rfl
  · intro a h; rfl
  · intro a h; rfl
  · intro a h; rfl
  · intro a h
    by_cases hs : r.sort_entries_ <;> simp only [hs, if_true, if_false] <;> rfl
  · intro h; rfl
  · intro h; rfl
  · intro h; rfl
  · by_cases hd : r.dow <;> by_cases hb : r.by_payee <;>
      simp only [hd, hb, if_true, if_false] <;>
      first
        | exact List.Forall₂.nil
        | exact List.Forall₂.cons (fun h => rfl) List.Forall₂.nil
  · intro a h; rfl

/-- C1: `build(options, base)` assembles the chain by starting from the
base stage and, for each enabled optional stage in the fixed precedence
order — truncate-by-position, display filter, running-total calculator,
only filter, sort, revaluation, collapse, subtotal, day-of-week/payee
grouping, interval grouping with its date sort, invert,
related-expansion, anonymize, limit filter, payee substitution — wrapping
the previously assembled chain, so that the stage wired last (the last
enabled entry of the fold) becomes the returned head and, under the
head-first streaming protocol of `runHandler`, executes first. -/
theorem claim_C1_precedence_order (r : report_t) (b : Handler) (ae : expr_t)
    (hr : r.amount_ = some ae) :
    chain_xact_handlers r b true
      = some (build_spec (set_amount_context r) true b, set_amount_context r) :=
  build_true_eq r b ae hr

theorem claim_C1_witness :
    rC3.amount_ = some { text := "amt", context := none } ∧
    chain_xact_handlers rC3 Handler.base true
      = some (build_spec (set_amount_context rC3) true Handler.base,
          set_amount_context rC3) :=
  ⟨rfl, claim_C1_precedence_order rC3 Handler.base { text := "amt", context := none } rfl⟩

/-- C6: the builder fails exactly when individual-transaction mode is
requested and the amount expression option is absent (the
`assert(report.HANDLED(amount_))`), at build time, and in no other
case. -/
theorem claim_C6_fails_iff_no_amount (r : report_t) (b : Handler) (m : Bool) :
    chain_xact_handlers r b m = none ↔ (m = true ∧ r.amount_ = none) := by
  cases m
  · simp [build_false_eq]
  · cases ha : r.amount_
    · simp [chain_xact_handlers, ha]
    · simp [build_true_eq r b _ ha]

/-- C7: outside individual-transaction mode the builder wires only the
invert, related-expansion, anonymize, limit-filter and payee-substitution
steps (the `common_wraps` fold, each step enabled by its own option), and
in individual-transaction mode it wires exactly the same mode-independent
steps around the individual-mode prefix. -/
theorem claim_C7_common_stages_both_modes (r : report_t) (b : Handler) :
    chain_xact_handlers r b false = some (applyAll (common_wraps r) b, r)
    ∧ (∀ ae, r.amount_ = some ae →
        (chain_xact_handlers r b true).map Prod.fst
          = some (applyAll (common_wraps (set_amount_context r))
              (applyAll (individual_wraps (set_amount_context r)) b))) := by
  refine ⟨build_false_eq r b, ?_⟩
  intro ae ha
  rw [build_true_eq r b ae ha]
  simp [build_spec, applyAll_append]

theorem claim_C7_witness :
    chain_xact_handlers rC3 Handler.base false
      = some (applyAll (common_wraps rC3) Handler.base, rC3)
    ∧ (chain_xact_handlers rC3 Handler.base true).map Prod.fst
        = some (applyAll (common_wraps (set_amount_context rC3))
            (applyAll (individual_wraps (set_amount_context rC3)) Handler.base)) :=
  ⟨(claim_C7_common_stages_both_modes rC3 Handler.base).1,
   (claim_C7_common_stages_both_modes rC3 Handler.base).2
     { text := "amt", context := none } rfl⟩

/-- C9: with individual-transaction mode off and none of invert, related,
anon, limit, comm_as_payee and code_as_payee present, the builder returns
exactly the base stage it was given, wiring no stage at all. -/
theorem claim_C9_identity_chain (r : report_t) (b : Handler)
    (hi : r.invert = false) (hrel : r.related = false) (han : r.anon = false)
    (hl : r.limit_ = none) (hcp : r.comm_as_payee = false)
    (hcode : r.code_as_payee = false) :
    chain_xact_handlers r b false = some (b, r) := by
  rw [build_false_eq]
  simp [common_wraps, hi, hrel, han, hl, hcp, hcode, boolSeg, optSeg, applyAll]

theorem claim_C9_witness :
    chain_xact_handlers report0 Handler.base false = some (Handler.base, report0) :=
  claim_C9_identity_chain report0 Handler.base rfl rfl rfl rfl rfl rfl

/-- C8 counterexample: the claim says no option value or expression of the
configuration is mutated by the builder, but in individual mode the
builder reseats the amount expression's evaluation context onto the
report (`expr.set_context(&report)`, src/chain.cc line 65): starting from
`rC8`, whose amount expression has no context, the report the builder
leaves behind differs from the input report. -/
theorem claim_C8_counterexample :
    (chain_xact_handlers rC8 Handler.base true).map Prod.snd
      = some (set_amount_context rC8)
    ∧ (chain_xact_handlers rC8 Handler.base true).map Prod.snd ≠ some rC8 := by
  constructor
  · decide
  · decide

/-- C8 amended: the configuration is read-only for the builder except for
exactly one write — in individual-transaction mode the builder sets the
amount expression's evaluation context to the report itself; outside that
mode the configuration is returned untouched.  (The wired stages never
touch the configuration: `runHandler` is a function of the chain and the
input stream only.) -/
theorem claim_C8_readonly_except_context (r : report_t) (b : Handler) (m : Bool)
    (h : Handler) (r2 : report_t)
    (hb : chain_xact_handlers r b m = some (h, r2)) :
    r2 = (if m then set_amount_context r else r) := by
  cases m
  · rw [build_false_eq] at hb
    simp only [Option.some.injEq, Prod.mk.injEq] at hb
    simp [hb.2.symm]
  · cases ha : r.amount_
    · simp [chain_xact_handlers, ha] at hb
    · rw [build_true_eq r b _ ha] at hb
      simp only [Option.some.injEq, Prod.mk.injEq] at hb
      simp [hb.2.symm]

theorem claim_C8_witness :
    set_amount_context rC8 = (if true then set_amount_context rC8 else rC8) :=
  claim_C8_readonly_except_context rC8 Handler.base true hC8
    (set_amount_context rC8) (by decide)

/-- C2 counterexample: the claim says transactions excluded by the display
filter never contribute to any other transaction's running total.  In the
built chain the calculator is wired after (wrapping) the display filter,
so under the head-first streaming protocol it executes first, on the
unfiltered stream: on `xsC2` (amounts 1, 2, 3, the second excluded by the
display predicate) the surviving third transaction's total is 6 = 1+2+3,
not the 4 = 1+3 the claim requires. -/
theorem claim_C2_counterexample :
    (chain_xact_handlers rC2 Handler.base true).map
        (fun pr => (runHandler envEx pr.1 xsC2).map Xact.total) = some [1, 6]
    ∧ ([1, 6] : List Int) ≠ [1, 4] := by
  constructor
  · decide
  · decide

/-- C2 amended: in individual-transaction mode the running-total
calculator is wired after the display filter, hence executes before it:
in a configuration enabling only the display filter and the amount
expression, for every environment and input stream the chain computes
running totals as prefix sums over all input transactions and only then
applies the display filter, so display-excluded transactions do
contribute to the running totals of later transactions. -/
theorem claim_C2_totals_before_display (env : Env) (r : report_t) (b : Handler)
    (s : String) (ae : expr_t) (xs : List Xact) (h : Handler) (r2 : report_t)
    (hd : r.display_ = some s) (ha : r.amount_ = some ae)
    (hh : r.head_ = none) (ht : r.tail_ = none) (ho : r.only_ = none)
    (hs : r.sort_ = none) (hrev : r.revalued = false) (hc : r.collapse = false)
    (hsub : r.subtotal = false) (hdow : r.dow = false) (hbp : r.by_payee = false)
    (hp : r.period_ = none) (hi : r.invert = false) (hrel : r.related = false)
    (han : r.anon = false) (hl : r.limit_ = none) (hcp : r.comm_as_payee = false)
    (hcode : r.code_as_payee = false)
    (hb : chain_xact_handlers r b true = some (h, r2)) :
    runHandler env h xs
      = runHandler env b
          ((calcTotals (env.evalAmount ae.text) 0 xs).filter
            (env.evalPred s r.what_to_keep)) := by
  rw [build_true_eq r b ae ha] at hb
  simp only [Option.some.injEq, Prod.mk.injEq] at hb
  obtain ⟨hbh, -⟩ := hb
  subst hbh
  have hset : set_amount_context r
      = { r with amount_ := some { ae with context := some r.id } } := by
    unfold set_amount_context; rw [ha]
  simp [build_spec, individual_wraps, common_wraps, hset, hd, ho, hs, hh, ht,
    hrev, hc, hsub, hdow, hbp, hp, hi, hrel, han, hl, hcp, hcode, boolSeg,
    optSeg, applyAll, runHandler]

theorem claim_C2_witness :
    chain_xact_handlers rC2 Handler.base true = some (hC2, set_amount_context rC2)
    ∧ runHandler envEx hC2 xsC2
        = runHandler envEx Handler.base
            ((calcTotals (envEx.evalAmount "amt") 0 xsC2).filter
              (envEx.evalPred "disp" rC2.what_to_keep)) :=
  ⟨by decide,
   claim_C2_totals_before_display envEx rC2 Handler.base "disp"
     { text := "amt", context := none } xsC2 hC2 (set_amount_context rC2)
     rfl rfl rfl rfl rfl rfl rfl rfl rfl rfl rfl rfl rfl rfl rfl rfl rfl rfl
     (by decide)⟩

/-- C3 counterexample: the claim says the interval stage's date sort is
applied to its grouped output, so periods come out chronologically
regardless of any earlier sort option.  In the built chain the forced
date sort wraps the interval stage (it executes before it, on its input),
while the user's sort option is wired earlier and therefore executes
after the grouping: with the non-date sort "negd" also enabled, the two
period subtotals of `xsC3` are emitted with dates [30, 0] — not
chronological. -/
theorem claim_C3_counterexample :
    (chain_xact_handlers rC3 Handler.base true).map
        (fun pr => (runHandler envEx pr.1 xsC3).map Xact.date) = some [30, 0]
    ∧ ¬ (([30, 0] : List Nat).Pairwise (· ≤ ·)) := by
  constructor
  · decide
  · decide

/-- C3 amended: when the period option is present in individual mode the
builder always wires the forced ascending-date sort immediately wrapping
the interval stage, so the sort executes immediately before grouping,
sorting the grouping stage's input; consequently, in a configuration
where no other stage follows the grouping (in particular no sort option),
the period subtotals are emitted in chronological order, provided the
collaborator's date key is the date and its period bucketing is
monotone. -/
theorem claim_C3_period_chronological (env : Env) (r : report_t) (p : String)
    (ae : expr_t) (xs : List Xact) (h : Handler) (r2 : report_t)
    (ha : r.amount_ = some ae) (hp : r.period_ = some p)
    (hh : r.head_ = none) (ht : r.tail_ = none) (hd : r.display_ = none)
    (ho : r.only_ = none) (hs : r.sort_ = none) (hrev : r.revalued = false)
    (hc : r.collapse = false) (hsub : r.subtotal = false) (hdow : r.dow = false)
    (hbp : r.by_payee = false) (hi : r.invert = false) (hrel : r.related = false)
    (han : r.anon = false) (hl : r.limit_ = none) (hcp : r.comm_as_payee = false)
    (hcode : r.code_as_payee = false)
    (hkey : ∀ x, env.evalKey "d" x = (x.date : Int))
    (hmono : ∀ d e, d ≤ e → env.periodOf p d ≤ env.periodOf p e)
    (hb : chain_xact_handlers r Handler.base true = some (h, r2)) :
    h = Handler.sort_xacts
          (Handler.interval_xacts
            (Handler.calc_xacts Handler.base
              { text := ae.text, context := some r.id }) p) "d"
    ∧ (runHandler env h xs).Pairwise (fun a b => a.date ≤ b.date) := by
  rw [build_true_eq r Handler.base ae ha] at hb
  simp only [Option.some.injEq, Prod.mk.injEq] at hb
  obtain ⟨hbh, -⟩ := hb
  subst hbh
  have hset : set_amount_context r
      = { r with amount_ := some { ae with context := some r.id } } := by
    unfold set_amount_context; rw [ha]
  have hshape : build_spec (set_amount_context r) true Handler.base
      = Handler.sort_xacts
          (Handler.interval_xacts
            (Handler.calc_xacts Handler.base
              { text := ae.text, context := some r.id }) p) "d" := by
    simp [build_spec, individual_wraps, common_wraps, hset, hp, hd, ho, hs, hh,
      ht, hrev, hc, hsub, hdow, hbp, hi, hrel, han, hl, hcp, hcode, boolSeg,
      optSeg, applyAll, applyAll_append]
  rw [hshape]
  refine ⟨rfl, ?_⟩
  simp only [runHandler]
  apply pairwise_date_calcTotals
  apply pairwise_date_intervalF _ _ hmono
  refine (pairwise_sortByKey (env.evalKey "d") xs).imp ?_
  intro a b hab
  rw [hkey a, hkey b] at hab
  exact_mod_cast hab

theorem claim_C3_witness :
    hC3w = Handler.sort_xacts
        (Handler.interval_xacts
          (Handler.calc_xacts Handler.base { text := "amt", context := some 0 }) "w") "d"
    ∧ (runHandler envEx hC3w xsC3).Pairwise (fun a b => a.date ≤ b.date) :=
  claim_C3_period_chronological envEx rC3w "w" { text := "amt", context := none }
    xsC3 hC3w (set_amount_context rC3w)
    rfl rfl rfl rfl rfl rfl rfl rfl rfl rfl rfl rfl rfl rfl rfl rfl rfl rfl
    (fun x => rfl) (fun d e hde => hde) (by decide)

/-- C5 counterexample: the claim says the limit filter is evaluated last,
constraining the final visible set regardless of earlier transformations.
The limit filter is wired near the end of the chain, hence executes near
the head, before the earlier-wired invert stage: with invert and the
limit predicate "positive amount" enabled, the input transaction of
amount 5 passes the limit filter and is then negated, so the final
visible set holds a transaction of amount -5 that violates the limit
predicate. -/
theorem claim_C5_counterexample :
    (chain_xact_handlers rC5 Handler.base false).map
        (fun pr => (runHandler envEx pr.1 xsC5).map
          (fun x => envEx.evalPred "pos" rC5.what_to_keep x)) = some [false]
    ∧ (chain_xact_handlers rC5 Handler.base false).map
        (fun pr => (runHandler envEx pr.1 xsC5).map Xact.amount) = some [-5] := by
  constructor
  · decide
  · decide

/-- C5 amended: when the limit option is present (and no payee
substitution is requested), the limit filter is the stage wired last, so
it is the head of the returned chain and executes first: it filters the
raw input stream by the limit predicate before any other wired stage
sees it, rather than constraining the final visible set. -/
theorem claim_C5_limit_is_head (env : Env) (r : report_t) (b : Handler)
    (m : Bool) (s : String) (xs : List Xact) (h : Handler) (r2 : report_t)
    (hl : r.limit_ = some s) (hcp : r.comm_as_payee = false)
    (hcode : r.code_as_payee = false)
    (hb : chain_xact_handlers r b m = some (h, r2)) :
    h = Handler.filter_xacts (innerOf h) s r.what_to_keep
    ∧ runHandler env h xs
        = runHandler env (innerOf h) (xs.filter (env.evalPred s r.what_to_keep)) := by
  cases m
  · rw [build_false_eq] at hb
    simp only [Option.some.injEq, Prod.mk.injEq] at hb
    obtain ⟨hbh, -⟩ := hb
    subst hbh
    constructor
    · simp [common_wraps, hl, hcp, hcode, applyAll_append, applyAll_optSeg,
        applyAll_single, applyAll_nil, applyAll_boolSeg, innerOf]
    · simp [common_wraps, hl, hcp, hcode, applyAll_append, applyAll_optSeg,
        applyAll_single, applyAll_nil, applyAll_boolSeg, innerOf, runHandler]
  · cases ha : r.amount_ with
    | none => simp [chain_xact_handlers, ha] at hb
    | some ae =>
      rw [build_true_eq r b ae ha] at hb
      simp only [Option.some.injEq, Prod.mk.injEq] at hb
      obtain ⟨hbh, -⟩ := hb
      subst hbh
      have hset : set_amount_context r
          = { r with amount_ := some { ae with context := some r.id } } := by
        unfold set_amount_context; rw [ha]
      constructor
      · simp [build_spec, applyAll_append, hset, common_wraps, hl, hcp, hcode,
          applyAll_optSeg, applyAll_single, applyAll_nil, applyAll_boolSeg, innerOf]
      · simp [build_spec, applyAll_append, hset, common_wraps, hl, hcp, hcode,
          applyAll_optSeg, applyAll_single, applyAll_nil, applyAll_boolSeg,
          innerOf, runHandler]

theorem claim_C5_witness :
    hC5 = Handler.filter_xacts (innerOf hC5) "pos" rC5.what_to_keep
    ∧ runHandler envEx hC5 xsC5
        = runHandler envEx (innerOf hC5)
            (xsC5.filter (envEx.evalPred "pos" rC5.what_to_keep)) :=
  claim_C5_limit_is_head envEx rC5 Handler.base false "pos" xsC5 hC5 rC5
    rfl rfl rfl (by decide)

theorem mem_boolTags {c : Bool} {ts s : List StageTag} :
    s ∈ boolTags c ts ↔ (c = true ∧ s = ts) := by
  cases c <;> simp [boolTags]

theorem mem_optTags {α : Type} {o : Option α} {t : α → List StageTag} {s : List StageTag} :
    s ∈ optTags o t ↔ ∃ a, o = some a ∧ s = t a := by
  cases o <;> simp [optTags]

theorem mem_pairTags {c1 c2 : Bool} {t1 t2 s : List StageTag} :
    s ∈ (if c1 then [t1] else if c2 then [t2] else [])
      ↔ ((c1 = true ∧ s = t1) ∨ (c1 = false ∧ c2 = true ∧ s = t2)) := by
  cases c1 <;> cases c2 <;> simp

theorem exists_mem_of_bool {C : Prop} {L : List StageTag} {t : StageTag} :
    (∃ l, (C ∧ l = L) ∧ t ∈ l) ↔ (C ∧ t ∈ L) := by
  constructor
  · rintro ⟨l, ⟨hc, rfl⟩, ht⟩
    exact ⟨hc, ht⟩
  · rintro ⟨hc, ht⟩
    exact ⟨L, ⟨hc, rfl⟩, ht⟩

theorem exists_mem_of_opt {α : Type} {o : Option α} {L : α → List StageTag} {t : StageTag} :
    (∃ l, (∃ a, o = some a ∧ l = L a) ∧ t ∈ l) ↔ (∃ a, o = some a ∧ t ∈ L a) := by
  constructor
  · rintro ⟨l, ⟨a, hoa, rfl⟩, ht⟩
    exact ⟨a, hoa, ht⟩
  · rintro ⟨a, hoa, ht⟩
    exact ⟨L a, ⟨a, hoa, rfl⟩, ht⟩

theorem exists_mem_of_pair {C1 C2 C3 : Prop} {L1 L2 : List StageTag} {t : StageTag} :
    (∃ l, (C1 ∧ l = L1 ∨ C2 ∧ C3 ∧ l = L2) ∧ t ∈ l)
      ↔ ((C1 ∧ t ∈ L1) ∨ (C2 ∧ C3 ∧ t ∈ L2)) := by
  constructor
  · rintro ⟨l, ⟨hc, rfl⟩ | ⟨hc2, hc3, rfl⟩, ht⟩
    · exact Or.inl ⟨hc, ht⟩
    · exact Or.inr ⟨hc2, hc3, ht⟩
  · rintro (⟨hc, ht⟩ | ⟨hc2, hc3, ht⟩)
    · exact ⟨L1, Or.inl ⟨hc, rfl⟩, ht⟩
    · exact ⟨L2, Or.inr ⟨hc2, hc3, rfl⟩, ht⟩

theorem mem_ite_list {c : Prop} [Decidable c] {l1 l2 : List StageTag} {t : StageTag} :
    t ∈ (if c then l1 else l2) ↔ ((c ∧ t ∈ l1) ∨ (¬ c ∧ t ∈ l2)) := by
  by_cases h : c <;> simp [h]

/-- The stages of any chain built in individual mode: the tag segments of
the individual-mode steps and then the mode-independent steps, wired last
outermost, over the base handler's own stages. -/
theorem stageTags_build_true (r : report_t) (b : Handler) (ae : expr_t)
    (h : Handler) (r2 : report_t)
    (hr : r.amount_ = some ae)
    (hb : chain_xact_handlers r b true = some (h, r2)) :
    stageTags h
      = ((individual_tag_segs (set_amount_context r)
          ++ common_tag_segs (set_amount_context r)).reverse.flatten)
        ++ stageTags b := by
  rw [build_true_eq r b ae hr] at hb
  simp only [Option.some.injEq, Prod.mk.injEq] at hb
  obtain ⟨hbh, -⟩ := hb
  subst hbh
  have hsplit : build_spec (set_amount_context r) true b
      = applyAll (individual_wraps (set_amount_context r)
          ++ common_wraps (set_amount_context r)) b := by
    simp [build_spec]
  rw [hsplit]
  exact stageTags_applyAll
    (forall2_prepends_append (forall2_individual _) (forall2_common _)) b

theorem no_sort_tags_common (r : report_t) :
    ∀ t ∈ (common_tag_segs r).reverse.flatten, isSortTag t = false := by
  intro t ht
  simp only [List.mem_flatten, List.mem_reverse] at ht
  obtain ⟨l, hl, htl⟩ := ht
  simp only [common_tag_segs, List.mem_append, mem_boolTags, mem_optTags,
    mem_pairTags] at hl
  aesop

theorem no_sort_tags_individual (r : report_t) (hs : r.sort_ = none)
    (hp : r.period_ = none) :
    ∀ t ∈ (individual_tag_segs r).reverse.flatten, isSortTag t = false := by
  intro t ht
  simp only [List.mem_flatten, List.mem_reverse] at ht
  obtain ⟨l, hl, htl⟩ := ht
  simp only [individual_tag_segs, List.mem_append, mem_boolTags, mem_optTags,
    mem_pairTags, hs, hp] at hl
  aesop

theorem no_sort_tags_append (r : report_t) (hs : r.sort_ = none)
    (hp : r.period_ = none) :
    ((individual_tag_segs r ++ common_tag_segs r).reverse.flatten).any isSortTag
      = false := by
  rw [List.any_eq_false]
  intro t ht
  rw [List.reverse_append, List.flatten_append, List.mem_append] at ht
  rcases ht with ht | ht
  · simp [no_sort_tags_common r t ht]
  · simp [no_sort_tags_individual r hs hp t ht]

/-- C4 counterexample: the claim says selecting day-of-week grouping
overrides plain subtotaling, so only the day-of-week stage would be
wired.  The source has two separate conditionals (`if (subtotal)` then a
separate `if (dow) else if (by_payee)`): with both options set the built
chain contains both the subtotal stage and the day-of-week stage. -/
theorem claim_C4_counterexample :
    chain_xact_handlers rC4 Handler.base true = some (hC4, set_amount_context rC4)
    ∧ StageTag.subtotalT ∈ stageTags hC4 ∧ StageTag.dowT ∈ stageTags hC4 := by
  refine ⟨by decide, by decide, by decide⟩

/-- C4 amended: day-of-week and payee grouping are mutually exclusive
(day-of-week takes precedence when both are selected), but plain
subtotaling is independent of them: the subtotal stage is wired exactly
when its option is present, even when a grouping option is also present
(the grouping stage then wraps the subtotal stage). -/
theorem claim_C4_grouping_exclusivity (r : report_t) (ae : expr_t)
    (h : Handler) (r2 : report_t)
    (ha : r.amount_ = some ae)
    (hb : chain_xact_handlers r Handler.base true = some (h, r2)) :
    (StageTag.subtotalT ∈ stageTags h ↔ r.subtotal = true)
    ∧ (StageTag.dowT ∈ stageTags h ↔ r.dow = true)
    ∧ (StageTag.byPayeeT ∈ stageTags h ↔ (r.dow = false ∧ r.by_payee = true)) := by
  have hset : set_amount_context r
      = { r with amount_ := some { ae with context := some r.id } } := by
    unfold set_amount_context; rw [ha]
  rw [stageTags_build_true r Handler.base ae h r2 ha hb, hset]
  simp [stageTags, List.mem_flatten, List.mem_reverse, List.mem_append,
    individual_tag_segs, common_tag_segs, mem_boolTags, mem_optTags, mem_pairTags,
    exists_mem_of_bool, exists_mem_of_opt, exists_mem_of_pair, mem_ite_list]

theorem claim_C4_witness :
    (StageTag.subtotalT ∈ stageTags hC4 ↔ rC4.subtotal = true)
    ∧ (StageTag.dowT ∈ stageTags hC4 ↔ rC4.dow = true)
    ∧ (StageTag.byPayeeT ∈ stageTags hC4 ↔ (rC4.dow = false ∧ rC4.by_payee = true)) :=
  claim_C4_grouping_exclusivity rC4 { text := "amt", context := none } hC4
    (set_amount_context rC4) rfl (by decide)

/-- C10 counterexample: the claim says a sort stage is wired only when
the sort option is present.  With the period option present and the sort
option absent, the builder still wires a (forced, date) sort stage
wrapping the interval stage, so the built chain contains a sort stage. -/
theorem claim_C10_counterexample :
    rC10.sort_ = none ∧ rC10.sort_entries_ = true
    ∧ (chain_xact_handlers rC10 Handler.base true).map
        (fun pr => containsSortStage pr.1) = some true := by
  refine ⟨rfl, rfl, by decide⟩

/-- C10 amended: a sort stage is wired only when the sort option or the
period option is present; and if sort_entries is present while the sort
option is absent, the built chain is the same as with sort_entries
absent, so sort_entries alone has no effect on the built chain. -/
theorem claim_C10_sort_entries_inert (r : report_t) (b : Handler) (m : Bool)
    (v : Bool) (h : Handler) (r2 : report_t) (hs : r.sort_ = none) :
    ((chain_xact_handlers { r with sort_entries_ := v } b m).map Prod.fst
      = (chain_xact_handlers r b m).map Prod.fst)
    ∧ (r.period_ = none → chain_xact_handlers r b m = some (h, r2) →
        containsSortStage h = containsSortStage b) := by
  constructor
  · cases m
    · simp only [build_false_eq, Option.map_some]
      rfl
    · simp only [chain_xact_handlers, hs]
      cases r.amount_ <;> rfl
  · intro hp hb
    cases m
    · rw [build_false_eq] at hb
      simp only [Option.some.injEq, Prod.mk.injEq] at hb
      obtain ⟨hbh, -⟩ := hb
      subst hbh
      rw [containsSortStage, stageTags_applyAll (forall2_common r) b,
        List.any_append]
      have hfalse : ((common_tag_segs r).reverse.flatten).any isSortTag = false := by
        rw [List.any_eq_false]
        intro t ht
        simp [no_sort_tags_common r t ht]
      rw [hfalse]
      simp [containsSortStage]
    · cases ha : r.amount_ with
      | none => simp [chain_xact_handlers, ha] at hb
      | some ae =>
        have htags := stageTags_build_true r b ae h r2 ha hb
        rw [containsSortStage, htags, List.any_append]
        have h2 : set_amount_context r
            = { r with amount_ := some { ae with context := some r.id } } := by
          simp [set_amount_context, ha]
        have hfalse := no_sort_tags_append (set_amount_context r)
          (by rw [h2]; exact hs) (by rw [h2]; exact hp)
        rw [hfalse]
        simp [containsSortStage]

theorem claim_C10_witness :
    ((chain_xact_handlers { rC10w with sort_entries_ := false } Handler.base true).map
        Prod.fst
      = (chain_xact_handlers rC10w Handler.base true).map Prod.fst)
    ∧ containsSortStage hC10w = containsSortStage Handler.base :=
  ⟨(claim_C10_sort_entries_inert rC10w Handler.base true false hC10w
      (set_amount_context rC10w) rfl).1,
   (claim_C10_sort_entries_inert rC10w Handler.base true false hC10w
      (set_amount_context rC10w) rfl).2 rfl (by decide)⟩

end Ledger
